import Mathlib

/-!
# AutoWeb agent engine: verification of the cache / orchestration layer

This development gives a shallow embedding, in Lean 4, of the pure logic of
the AutoWeb browser-automation agent:

* the similarity squash and weight normalization of the vector gateway
  (`skills/vector_gateway.py`, `skills/code_cache.py`);
* cache URL normalization (`CodeCacheManager._normalize_url`), including a
  faithful model of the relevant fragment of CPython 3.11 `urllib.parse.urlsplit`
  / `urlparse`;
* the parameter-aware substitution regex of `skills/code_cache.py`
  (`apply_param_substitution`), modelled as an explicit backtracking matcher
  with the exact semantics of the pattern `(['"])([^'"]*?)OLD([^'"]*?)\1`;
* the knowledge-base batch format-consistency check
  (`KnowledgeBaseManager._sanitize_format_consistency` in `skills/tool_rag.py`);
* the retrieval pipelines of `CodeCacheManager.search` and
  `DomCacheManager.search` with their exception handling, the TTL filter and
  the hard task-intent gate;
* the `cache_lookup_node`, `planner_node` and `_handle_cache_failure` logic of
  `core/nodes.py`.

External collaborators (the LLM, the embedding service, the Milvus store, the
cross-encoder, `difflib.SequenceMatcher`, `datetime.strptime`, floating point
cosine) are modelled as explicit oracle parameters: the theorems hold for every
behaviour of those oracles.  Numeric values are modelled by `ℚ`; the Python
code uses IEEE doubles, and every arithmetic fact proved here is exact.
-/

set_option autoImplicit false

namespace AutoWeb

/-! ## Similarity squash (`VectorCacheBase._to_similarity`,
     `CodeCacheManager._to_similarity`)

Python source (`skills/code_cache.py` lines 288-296, identical to
`skills/vector_base.py` lines 179-188):

```
value = float(score)
if 0.0 <= value <= 1.0: return value
if 1.0 < value <= 2.0:  return max(0.0, 1.0 - value / 2.0)
if -1.0 <= value < 0.0: return max(0.0, min(1.0, 1.0 + value))
return max(0.0, min(1.0, 1.0 / (1.0 + abs(value))))
```
-/

def toSimilarity (score : ℚ) : ℚ :=
  if 0 ≤ score ∧ score ≤ 1 then score
  else if 1 < score ∧ score ≤ 2 then max 0 (1 - score / 2)
  else if -1 ≤ score ∧ score < 0 then max 0 (min 1 (1 + score))
  else max 0 (min 1 (1 / (1 + |score|)))

/-! ## Weight normalization (`vector_gateway.normalize_weights`)

Python source (`skills/vector_gateway.py` lines 93-104):

```
safe = [max(0.0, float(w)) for w in weights]
total = sum(safe)
if total <= 0: return tuple(float(x) for x in defaults)
return tuple(w / total for w in safe)
```
(the `abs(total - 1.0) > 1e-6` branch only prints a log line). -/

def clampWeights (weights : List ℚ) : List ℚ :=
  weights.map (fun w => max 0 w)

def normalizeWeights (weights defaults : List ℚ) : List ℚ :=
  let safe := clampWeights weights
  let total := safe.sum
  if total ≤ 0 then defaults
  else safe.map (fun w => w / total)

theorem sum_map_div (l : List ℚ) (t : ℚ) :
    (l.map (fun w => w / t)).sum = l.sum / t := by
  induction l with
  | nil => simp
  | cons a l ih => simp [ih, add_div]

/-- C4 (counterexample): the similarity squash is not monotone non-decreasing in
the raw score: a raw score of 1 maps to similarity 1, while the larger raw
score 3/2 maps to similarity 1/4. -/
theorem toSimilarity_monotone_counterexample :
    (1 : ℚ) ≤ 3 / 2 ∧ toSimilarity (3 / 2) < toSimilarity 1 := by
  refine ⟨by norm_num, ?_⟩
  norm_num [toSimilarity]

/-- C4 (amended): the similarity squash `_to_similarity` always outputs a value
in `[0, 1]`, is the identity on raw scores already in `[0, 1]`, and is monotone
non-decreasing on raw scores in `[0, 1]`; global monotonicity fails (see the
counterexample). -/
theorem toSimilarity_amended (a b : ℚ) :
    (0 ≤ toSimilarity a ∧ toSimilarity a ≤ 1) ∧
    (0 ≤ a → a ≤ 1 → toSimilarity a = a) ∧
    (0 ≤ a → a ≤ b → b ≤ 1 → toSimilarity a ≤ toSimilarity b) := by
  have range : ∀ s : ℚ, 0 ≤ toSimilarity s ∧ toSimilarity s ≤ 1 := by
    intro s
    unfold toSimilarity
    split_ifs with h1 h2 h3
    · exact ⟨h1.1, h1.2⟩
    · refine ⟨le_max_left _ _, max_le (by norm_num) (by linarith [h2.1])⟩
    · exact ⟨le_max_left _ _, max_le (by norm_num) (min_le_left _ _)⟩
    · exact ⟨le_max_left _ _, max_le (by norm_num) (min_le_left _ _)⟩
  have ident : ∀ s : ℚ, 0 ≤ s → s ≤ 1 → toSimilarity s = s := by
    intro s hs0 hs1
    unfold toSimilarity
    rw [if_pos ⟨hs0, hs1⟩]
  refine ⟨range a, ident a, ?_⟩
  intro ha0 hab hb1
  rw [ident a ha0 (le_trans hab hb1), ident b (le_trans ha0 hab) hb1]
  exact hab

theorem toSimilarity_amended_witness :
    toSimilarity (1 / 2 : ℚ) = 1 / 2 ∧
    toSimilarity (1 / 2 : ℚ) ≤ toSimilarity 1 :=
  ⟨(toSimilarity_amended (1 / 2) 1).2.1 (by norm_num) (by norm_num),
   (toSimilarity_amended (1 / 2) 1).2.2 (by norm_num) (by norm_num) (by norm_num)⟩

/-- C8: `normalize_weights` clamps negative entries to 0; if the clamped sum is
not positive it returns exactly the declared defaults; otherwise it rescales
the clamped weights proportionally and the result sums to 1 (exactly, in
rational arithmetic, hence within any tolerance such as `1e-6`). -/
theorem normalizeWeights_spec (weights defaults : List ℚ) :
    ((clampWeights weights).sum ≤ 0 →
      normalizeWeights weights defaults = defaults) ∧
    (0 < (clampWeights weights).sum →
      normalizeWeights weights defaults
        = (clampWeights weights).map (fun w => w / (clampWeights weights).sum) ∧
      (normalizeWeights weights defaults).sum = 1) := by
  constructor
  · intro h
    simp only [normalizeWeights, if_pos h]
  · intro h
    have hne : (clampWeights weights).sum ≠ 0 := ne_of_gt h
    have hform : normalizeWeights weights defaults
        = (clampWeights weights).map (fun w => w / (clampWeights weights).sum) := by
      simp only [normalizeWeights, if_neg (not_le.mpr h)]
    refine ⟨hform, ?_⟩
    rw [hform, sum_map_div, div_self hne]

theorem normalizeWeights_spec_witness :
    normalizeWeights [3, -1] [1 / 2, 1 / 2] = [1, 0] ∧
    (normalizeWeights [3, -1] [1 / 2, 1 / 2]).sum = 1 := by
  have h := (normalizeWeights_spec [3, -1] [1 / 2, 1 / 2]).2
    (by norm_num [clampWeights])
  refine ⟨?_, h.2⟩
  rw [h.1]
  norm_num [clampWeights]

/-! ## Cache URL normalization (`CodeCacheManager._normalize_url`)

Python source (`skills/code_cache.py` lines 235-247, identical to
`skills/vector_base.py` lines 164-173):

```
try:
    parsed = urlparse(url)
    domain = parsed.netloc
    if domain.lower().startswith("www."):
        domain = domain[4:]
    path = re.sub(r"/\d+", "/*", parsed.path or "")
    return f"(domain)(path)"[:512]
except Exception:
    return (url or "")[:512]
```

`urlparse` is CPython 3.11 `urllib.parse.urlparse`.  The model below follows
`urlsplit` (WHATWG strip of leading C0-control/space, removal of tab/CR/LF,
scheme detection, netloc split, fragment then query split) and `urlparse`'s
parameter split on the path.  Two checks of `urlsplit` are simplified: a netloc
containing a square bracket is always routed to the exception branch (CPython
accepts valid bracketed IP literals), and the non-ASCII NFKC netloc check is
omitted; the theorems below are stated so that neither simplification is ever
reachable (any input on which the model could diverge from CPython produces an
output containing a colon, starting with `//`, or starting with a space, and
ASCII-ness is a hypothesis where it matters). -/

def isSchemeChar (c : Char) : Bool :=
  c.isAlpha || c.isDigit || c == '+' || c == '-' || c == '.'

def notHash (c : Char) : Bool := !(c == '#')

def notQuery (c : Char) : Bool := !(c == '?')

def notSemi (c : Char) : Bool := !(c == ';')

def notSlash (c : Char) : Bool := !(c == '/')

def netlocEnd (c : Char) : Bool := c == '/' || c == '?' || c == '#'

def unsafeUrlByte (c : Char) : Bool := c == '\t' || c == '\r' || c == '\n'

/-- CPython `urllib.parse._splitparams`, restricted to the returned path:
drop a trailing `;params` from the last path segment. -/
def dropParams (p : List Char) : List Char :=
  if p.contains '/' then
    (p.reverse.dropWhile notSlash).reverse
      ++ (p.reverse.takeWhile notSlash).reverse.takeWhile notSemi
  else p.takeWhile notSemi

/-- Fragment split, then query split, then parameter split: the path component
`urlparse` reports for a scheme-and-netloc-free URL string. -/
def urlPathOf (u : List Char) : List Char :=
  dropParams ((u.takeWhile notHash).takeWhile notQuery)

/-- CPython 3.11 scheme detection of `urlsplit`: a `:` at positive index, a
leading ASCII letter, and only scheme characters before the colon strip the
scheme (there is no port-number special case in 3.11). -/
def schemeSplit (u : List Char) : List Char :=
  let i := u.findIdx (fun c => c == ':')
  if i < u.length ∧ 0 < i ∧ (u.headD ' ').isAlpha ∧ (u.take i).all isSchemeChar
  then u.drop (i + 1) else u

/-- The `(netloc, path)` pair of CPython 3.11 `urlparse`; `none` is the
exception branch (see the fidelity note above on bracketed netlocs). -/
def pyUrlparseNetlocPath (u : List Char) : Option (List Char × List Char) :=
  let u1 := u.dropWhile (fun c => c ≤ ' ')
  let u2 := u1.filter (fun c => !unsafeUrlByte c)
  let u3 := schemeSplit u2
  if u3.take 2 = ['/', '/'] then
    let rest := u3.drop 2
    let netloc := rest.takeWhile (fun c => !netlocEnd c)
    let after := rest.dropWhile (fun c => !netlocEnd c)
    if netloc.contains '[' ∨ netloc.contains ']' then none
    else some (netloc, urlPathOf after)
  else some ([], urlPathOf u3)

/-- `re.sub(r"/\d+", "/*", path)`, written with explicit fuel so that it is
structurally recursive (the fuel is always sufficient: every step consumes at
least one character). -/
def subNumFuel : Nat → List Char → List Char
  | 0, _ => []
  | _, [] => []
  | fuel + 1, c :: rest =>
    if c = '/' ∧ (rest.headD 'x').isDigit = true then
      '/' :: '*' :: subNumFuel fuel (rest.dropWhile Char.isDigit)
    else c :: subNumFuel fuel rest

/-- Replace every slash followed by a maximal nonempty digit run with `/*`. -/
def subNumSegments (s : List Char) : List Char := subNumFuel s.length s

/-- Strip a leading `www.` (case-insensitively) from the netloc. -/
def stripWww (domain : List Char) : List Char :=
  if (domain.map Char.toLower).take 4 = ['w', 'w', 'w', '.'] then domain.drop 4
  else domain

def normalizeUrlL (u : List Char) : List Char :=
  match pyUrlparseNetlocPath u with
  | none => u.take 512
  | some (netloc, path) => (stripWww netloc ++ subNumSegments path).take 512

def normalizeUrl (s : String) : String := ⟨normalizeUrlL s.data⟩

/-- A character that cannot interact with any of the splitting steps of
`urlparse`: not a colon, parameter, query, fragment or removed byte. -/
def plainUrlChar (c : Char) : Bool :=
  !(c == ':') && !(c == ';') && !(c == '?') && !(c == '#') && !unsafeUrlByte c

def headOk : List Char → Bool
  | [] => true
  | c :: _ => decide (' ' < c)

def noSlashDigit : List Char → Bool
  | [] => true
  | c :: rest =>
    (decide ¬(c = '/' ∧ (rest.headD 'x').isDigit = true)) && noSlashDigit rest

/-- A string that every splitting step of the normalizer passes through
unchanged.  The output of `_normalize_url` on an ordinary scheme-and-port-free
URL satisfies this predicate. -/
def stablePath (s : List Char) : Bool :=
  s.all plainUrlChar && headOk s && decide ¬(s.take 2 = ['/', '/'])
    && noSlashDigit s && decide (s.length ≤ 512)

theorem findIdx_eq_length_of_all {α : Type} (p : α → Bool) (l : List α)
    (h : ∀ a ∈ l, p a = false) : l.findIdx p = l.length := by
  induction l with
  | nil => rfl
  | cons a l ih =>
    have ha := h a (List.mem_cons_self a l)
    simp [List.findIdx_cons, ha, ih fun x hx => h x (List.mem_cons_of_mem _ hx)]

theorem takeWhile_eq_self_of_all {α : Type} (p : α → Bool) (l : List α)
    (h : ∀ a ∈ l, p a = true) : l.takeWhile p = l := by
  induction l with
  | nil => rfl
  | cons a l ih =>
    simp [List.takeWhile_cons, h a (List.mem_cons_self a l),
      ih fun x hx => h x (List.mem_cons_of_mem _ hx)]

theorem dropParams_eq_self (p : List Char) (h : ∀ a ∈ p, notSemi a = true) :
    dropParams p = p := by
  unfold dropParams
  split_ifs with hc
  · have hsub : ∀ a ∈ (p.reverse.takeWhile notSlash).reverse, notSemi a = true := by
      intro a ha
      apply h
      rw [List.mem_reverse] at ha
      have := (List.takeWhile_sublist (p := notSlash) (l := p.reverse)).subset ha
      simpa using this
    rw [takeWhile_eq_self_of_all _ _ hsub, ← List.reverse_append,
      List.takeWhile_append_dropWhile, List.reverse_reverse]
  · exact takeWhile_eq_self_of_all _ _ h

theorem subNumFuel_eq_self (fuel : Nat) (s : List Char)
    (hlen : s.length ≤ fuel) (h : noSlashDigit s = true) :
    subNumFuel fuel s = s := by
  induction fuel generalizing s with
  | zero =>
    have : s = [] := List.length_eq_zero.mp (Nat.le_zero.mp hlen)
    subst this
    rfl
  | succ fuel ih =>
    cases s with
    | nil => rfl
    | cons c rest =>
      rw [noSlashDigit, Bool.and_eq_true] at h
      rw [subNumFuel, if_neg (of_decide_eq_true h.1),
        ih rest (by simp only [List.length_cons] at hlen; omega) h.2]

theorem subNumSegments_eq_self (s : List Char) (h : noSlashDigit s = true) :
    subNumSegments s = s :=
  subNumFuel_eq_self s.length s le_rfl h

theorem plainUrlChar_spec (c : Char) (h : plainUrlChar c = true) :
    (c == ':') = false ∧ (c == ';') = false ∧ (c == '?') = false ∧
    (c == '#') = false ∧ unsafeUrlByte c = false := by
  rw [plainUrlChar] at h
  simp only [Bool.and_eq_true, Bool.not_eq_true'] at h
  exact ⟨h.1.1.1.1, h.1.1.1.2, h.1.1.2, h.1.2, h.2⟩

/-- Every splitting step of the model passes a `stablePath` string through
unchanged; this is the heart of the guarded idempotence law. -/
theorem normalizeUrlL_fixed (s : List Char) (h : stablePath s = true) :
    normalizeUrlL s = s := by
  rw [stablePath] at h
  simp only [Bool.and_eq_true, List.all_eq_true, decide_eq_true_eq] at h
  obtain ⟨⟨⟨⟨hall, hhead⟩, h2slash⟩, hnosd⟩, hlen⟩ := h
  have h1 : s.dropWhile (fun c => c ≤ ' ') = s := by
    cases s with
    | nil => rfl
    | cons c rest =>
      rw [headOk, decide_eq_true_eq] at hhead
      simp [List.dropWhile_cons, not_le.mpr hhead]
  have h2 : s.filter (fun c => !unsafeUrlByte c) = s :=
    List.filter_eq_self.mpr fun a ha => by
      simp [(plainUrlChar_spec a (hall a ha)).2.2.2.2]
  have h3 : schemeSplit s = s := by
    rw [schemeSplit]
    have hfi : s.findIdx (fun c => c == ':') = s.length :=
      findIdx_eq_length_of_all _ _ fun a ha => (plainUrlChar_spec a (hall a ha)).1
    rw [hfi, if_neg fun hcond => lt_irrefl s.length hcond.1]
  have h4 : urlPathOf s = s := by
    rw [urlPathOf,
      takeWhile_eq_self_of_all notHash s fun a ha => by
        simp [notHash, (plainUrlChar_spec a (hall a ha)).2.2.2.1],
      takeWhile_eq_self_of_all notQuery s fun a ha => by
        simp [notQuery, (plainUrlChar_spec a (hall a ha)).2.2.1],
      dropParams_eq_self s fun a ha => by
        simp [notSemi, (plainUrlChar_spec a (hall a ha)).2.1]]
  rw [normalizeUrlL]
  simp only [pyUrlparseNetlocPath, h1, h2, h3]
  rw [if_neg h2slash]
  simp only [stripWww, List.map_nil, List.take_nil]
  rw [if_neg (by decide), List.nil_append, h4, subNumSegments_eq_self s hnosd,
    List.take_of_length_le hlen]

/-- C5 (counterexample): `_normalize_url` is not idempotent.  For the URL
`http://example.com:8080/x` the first pass yields `example.com:8080/x`; on the
second pass CPython `urlparse` treats `example.com` as a URL scheme (all its
characters are scheme characters and there is no port-number special case in
Python 3.11), so the result collapses to `8080/x`. -/
theorem normalizeUrl_idempotence_counterexample :
    normalizeUrl "http://example.com:8080/x" = "example.com:8080/x" ∧
    normalizeUrl (normalizeUrl "http://example.com:8080/x") = "8080/x" ∧
    normalizeUrl (normalizeUrl "http://example.com:8080/x")
      ≠ normalizeUrl "http://example.com:8080/x" :=
  ⟨rfl, rfl, by decide⟩

/-- C5 (amended): URL normalization is idempotent on every input whose first
normalization contains no colon, semicolon, query, fragment or tab/CR/LF
character, does not begin with `//` or a control/space character, contains no
digit directly after a slash, and is at most 512 characters — in particular on
every ordinary `http(s)` URL without an explicit port.  (The ASCII hypothesis
only delimits the modelled fragment of CPython `urlparse`; with an explicit
port idempotence fails, see the counterexample.) -/
theorem normalizeUrl_idempotent_of_stable (u : String)
    (_hascii : u.data.all (fun c => c.toNat ≤ 127) = true)
    (hstable : stablePath (normalizeUrl u).data = true) :
    normalizeUrl (normalizeUrl u) = normalizeUrl u := by
  show (⟨normalizeUrlL (normalizeUrl u).data⟩ : String) = normalizeUrl u
  rw [normalizeUrlL_fixed _ hstable]

theorem normalizeUrl_idempotent_witness :
    normalizeUrl (normalizeUrl "http://www.example.com/10/item")
      = normalizeUrl "http://www.example.com/10/item" :=
  normalizeUrl_idempotent_of_stable "http://www.example.com/10/item"
    (by decide) (by decide)

/-! ## Parameter-aware substitution (`apply_param_substitution`)

Python source (`skills/code_cache.py` lines 78-89):

```
for old_val, new_val in diffs:
    pattern = re.compile(r"(['\x22])([^'\x22]*?)" + re.escape(old_val)
                         + r"([^'\x22]*?)\1")
    code = pattern.sub(lambda m: m.group(1) + m.group(2) + new_val
                                 + m.group(3) + m.group(1), code)
return code
```

The matcher below implements the exact backtracking semantics of this pattern:
`re.sub` scans left to right; at an opening quote, group 2 grows lazily over
non-quote characters, at each size the escaped literal `old_val` must match,
then group 3 grows lazily over non-quote characters up to a closing quote equal
to the opening one.  Scanning resumes after the match.  The diff list is
usually produced by `extract_param_diffs` (a `difflib.SequenceMatcher`
token diff); the theorems below quantify over arbitrary diff lists, which
subsumes every list that function can return. -/

def isQuoteChar (c : Char) : Bool := c == '\'' || c == '"'

/-- The lazy `([^'\x22]*?)` of group 3 followed by the backreference: the
minimal non-quote run whose next character is the opening quote `q`.
Encountering the other quote character first fails the whole attempt. -/
def findCloseQuote (q : Char) : List Char → Option (List Char × List Char)
  | [] => none
  | c :: cs =>
    if c = q then some ([], cs)
    else if isQuoteChar c then none
    else
      match findCloseQuote q cs with
      | some (g3, r) => some (c :: g3, r)
      | none => none

/-- Backtracking for `([^'\x22]*?)OLD([^'\x22]*?)\1` after an opening quote:
returns `(group2, group3, rest-after-closing-quote)` for the leftmost-lazy
successful split, or `none`. -/
def innerMatch (q : Char) (old : List Char) : List Char → Option (List Char × List Char × List Char)
  | [] =>
    match (if old.isPrefixOf ([] : List Char) then findCloseQuote q [] else none) with
    | some (g3, r) => some ([], g3, r)
    | none => none
  | c :: cs =>
    match (if old.isPrefixOf (c :: cs) then findCloseQuote q ((c :: cs).drop old.length) else none) with
    | some (g3, r) => some ([], g3, r)
    | none =>
      if isQuoteChar c then none
      else
        match innerMatch q old cs with
        | some (g2, g3, r) => some (c :: g2, g3, r)
        | none => none

/-- One full `pattern.sub` pass (all non-overlapping matches, left to right),
with explicit fuel for structural recursion; the fuel is always sufficient. -/
def subQuotedFuel (old new : List Char) : Nat → List Char → List Char
  | 0, _ => []
  | _, [] => []
  | fuel + 1, c :: cs =>
    if isQuoteChar c then
      match innerMatch c old cs with
      | some (g2, g3, rest) =>
        c :: (g2 ++ new ++ g3 ++ c :: subQuotedFuel old new fuel rest)
      | none => c :: subQuotedFuel old new fuel cs
    else c :: subQuotedFuel old new fuel cs

def subQuoted (old new : List Char) (s : List Char) : List Char :=
  subQuotedFuel old new s.length s

def applyParamSubstitutionL (diffs : List (List Char × List Char))
    (code : List Char) : List Char :=
  diffs.foldl (fun acc d => subQuoted d.1 d.2 acc) code

def applyParamSubstitution (code : String) (diffs : List (String × String)) :
    String :=
  ⟨applyParamSubstitutionL (diffs.map fun d => (d.1.data, d.2.data)) code.data⟩

theorem findCloseQuote_spec (q : Char) (s g3 r : List Char)
    (h : findCloseQuote q s = some (g3, r)) :
    s = g3 ++ q :: r ∧ ∀ c ∈ g3, isQuoteChar c = false := by
  induction s generalizing g3 r with
  | nil => simp [findCloseQuote] at h
  | cons c cs ih =>
    rw [findCloseQuote] at h
    by_cases hc : c = q
    · rw [if_pos hc] at h
      simp only [Option.some.injEq, Prod.mk.injEq] at h
      obtain ⟨h1, h2⟩ := h
      subst h1; subst h2; subst hc
      exact ⟨rfl, by simp⟩
    · rw [if_neg hc] at h
      by_cases hq : isQuoteChar c = true
      · rw [if_pos hq] at h
        exact absurd h (by simp)
      · rw [if_neg hq] at h
        cases heq : findCloseQuote q cs with
        | none => rw [heq] at h; exact absurd h (by simp)
        | some p =>
          obtain ⟨g3t, rt⟩ := p
          rw [heq] at h
          simp only [Option.some.injEq, Prod.mk.injEq] at h
          obtain ⟨h1, h2⟩ := h
          subst h1; subst h2
          obtain ⟨ht, hall⟩ := ih g3t rt heq
          refine ⟨by rw [List.cons_append, ← ht], ?_⟩
          intro x hx
          rcases List.mem_cons.mp hx with hx | hx
          · subst hx; exact Bool.not_eq_true _ ▸ hq
          · exact hall x hx

theorem innerMatch_spec (q : Char) (old : List Char) :
    ∀ (s g2 g3 r : List Char), innerMatch q old s = some (g2, g3, r) →
      s = g2 ++ old ++ g3 ++ q :: r ∧ (∀ c ∈ g2, isQuoteChar c = false) ∧
        (∀ c ∈ g3, isQuoteChar c = false) := by
  intro s
  induction s with
  | nil =>
    intro g2 g3 r h
    rw [innerMatch] at h
    cases hp : old.isPrefixOf ([] : List Char) <;>
      simp [hp, findCloseQuote] at h
  | cons c cs ih =>
    intro g2 g3 r h
    rw [innerMatch] at h
    cases hp : old.isPrefixOf (c :: cs) with
    | true =>
      rw [hp] at h
      simp only [if_true] at h
      cases hdir : findCloseQuote q ((c :: cs).drop old.length) with
      | some p =>
        obtain ⟨g3t, rt⟩ := p
        rw [hdir] at h
        simp only [Option.some.injEq, Prod.mk.injEq] at h
        obtain ⟨h1, h2, h3⟩ := h
        subst h1; subst h2; subst h3
        obtain ⟨t, ht⟩ := List.isPrefixOf_iff_prefix.mp hp
        obtain ⟨hsplit, hall⟩ := findCloseQuote_spec q _ _ _ hdir
        have hdrop : (c :: cs).drop old.length = t := by
          rw [← ht, List.drop_left]
        have ht2 : t = g3t ++ q :: rt := hdrop.symm.trans hsplit
        refine ⟨?_, by simp, hall⟩
        rw [List.nil_append, ← ht, ht2, List.append_assoc]
      | none =>
        rw [hdir] at h
        by_cases hq : isQuoteChar c = true
        · rw [if_pos hq] at h; exact absurd h (by simp)
        · rw [if_neg hq] at h
          cases hrec : innerMatch q old cs with
          | none => rw [hrec] at h; exact absurd h (by simp)
          | some trip =>
            obtain ⟨g2t, g3t, rt⟩ := trip
            rw [hrec] at h
            simp only [Option.some.injEq, Prod.mk.injEq] at h
            obtain ⟨h1, h2, h3⟩ := h
            subst h1; subst h2; subst h3
            obtain ⟨hcs, hall2, hall3⟩ := ih g2t g3t rt hrec
            refine ⟨by simp [hcs], ?_, hall3⟩
            intro x hx
            rcases List.mem_cons.mp hx with hx | hx
            · subst hx; exact Bool.not_eq_true _ ▸ hq
            · exact hall2 x hx
    | false =>
      simp only [hp, Bool.false_eq_true, if_false] at h
      by_cases hq : isQuoteChar c = true
      · rw [if_pos hq] at h; exact absurd h (by simp)
      · rw [if_neg hq] at h
        cases hrec : innerMatch q old cs with
        | none => rw [hrec] at h; exact absurd h (by simp)
        | some trip =>
          obtain ⟨g2t, g3t, rt⟩ := trip
          rw [hrec] at h
          simp only [Option.some.injEq, Prod.mk.injEq] at h
          obtain ⟨h1, h2, h3⟩ := h
          subst h1; subst h2; subst h3
          obtain ⟨hcs, hall2, hall3⟩ := ih g2t g3t rt hrec
          refine ⟨by simp [hcs], ?_, hall3⟩
          intro x hx
          rcases List.mem_cons.mp hx with hx | hx
          · subst hx; exact Bool.not_eq_true _ ▸ hq
          · exact hall2 x hx

theorem innerMatch_rest_lt (q : Char) (old s g2 g3 r : List Char)
    (h : innerMatch q old s = some (g2, g3, r)) : r.length < s.length := by
  have hs := (innerMatch_spec q old s g2 g3 r h).1
  rw [hs]
  simp only [List.length_append, List.length_cons]
  omega

/-- `SubTrace old new s t` says the string `t` is obtained from `s` purely by
rewriting, inside spans delimited by a pair of identical quote characters with
no intervening quote character, one occurrence of `old` into `new`; every
character outside such spans is copied unchanged and in order. -/
inductive SubTrace (old new : List Char) : List Char → List Char → Prop where
  | nil : SubTrace old new [] []
  | copy (c : Char) {s t : List Char} : SubTrace old new s t →
      SubTrace old new (c :: s) (c :: t)
  | subst (q : Char) (g2 g3 : List Char) {s t : List Char}
      (hq : isQuoteChar q = true)
      (hg2 : ∀ c ∈ g2, isQuoteChar c = false)
      (hg3 : ∀ c ∈ g3, isQuoteChar c = false)
      (h : SubTrace old new s t) :
      SubTrace old new (q :: (g2 ++ old ++ g3 ++ q :: s))
        (q :: (g2 ++ new ++ g3 ++ q :: t))

theorem subQuotedFuel_subtrace (old new : List Char) (fuel : Nat) :
    ∀ s : List Char, s.length ≤ fuel →
      SubTrace old new s (subQuotedFuel old new fuel s) := by
  induction fuel with
  | zero =>
    intro s hs
    have : s = [] := List.length_eq_zero.mp (Nat.le_zero.mp hs)
    subst this
    exact .nil
  | succ fuel ih =>
    intro s hs
    cases s with
    | nil => exact .nil
    | cons c cs =>
      rw [subQuotedFuel]
      by_cases hq : isQuoteChar c = true
      · rw [if_pos hq]
        cases hm : innerMatch c old cs with
        | none =>
          exact .copy c (ih cs (by simp only [List.length_cons] at hs; omega))
        | some trip =>
          obtain ⟨g2, g3, rest⟩ := trip
          obtain ⟨hcs, hg2, hg3⟩ := innerMatch_spec c old cs g2 g3 rest hm
          have hrest : rest.length ≤ fuel := by
            have := innerMatch_rest_lt c old cs g2 g3 rest hm
            simp only [List.length_cons] at hs
            omega
          rw [show (c :: cs) = c :: (g2 ++ old ++ g3 ++ c :: rest) from by rw [← hcs]]
          exact .subst c g2 g3 hq hg2 hg3 (ih rest hrest)
      · rw [if_neg hq]
        exact .copy c (ih cs (by simp only [List.length_cons] at hs; omega))

/-- C6 (amended): each substitution pass of `apply_param_substitution` only
rewrites text between a pair of identical quote characters containing no other
quote character, replacing there one occurrence of the old value by the new
value; every character outside such regex-matched spans is copied unchanged.
(The matched span need not be a Python string literal: it may stretch from the
closing quote of one literal to the opening quote of the next, so identifiers
between two literals can be modified — see the counterexample.) -/
theorem applyParamSubstitution_subtrace
    (diffs : List (List Char × List Char)) (code : List Char) :
    Relation.ReflTransGen (fun s t => ∃ d ∈ diffs, SubTrace d.1 d.2 s t) code
      (applyParamSubstitutionL diffs code) := by
  induction diffs generalizing code with
  | nil => exact .refl
  | cons d ds ih =>
    have hstep : SubTrace d.1 d.2 code (subQuoted d.1 d.2 code) :=
      subQuotedFuel_subtrace d.1 d.2 code.length code le_rfl
    have htail : Relation.ReflTransGen
        (fun s t => ∃ e ∈ d :: ds, SubTrace e.1 e.2 s t)
        (subQuoted d.1 d.2 code)
        (applyParamSubstitutionL ds (subQuoted d.1 d.2 code)) :=
      Relation.ReflTransGen.mono
        (fun a b hab => by
          obtain ⟨e, he, ht⟩ := hab
          exact ⟨e, List.mem_cons_of_mem d he, ht⟩)
        (ih (subQuoted d.1 d.2 code))
    exact Relation.ReflTransGen.head
      ⟨d, List.mem_cons_self d ds, hstep⟩ htail

/-- Python-literal scanner state (`none` = outside every string literal),
tracking which quote character opened the current literal; adequate for code
without backslash escapes. -/
def literalStep : Option Char → Char → Option Char
  | none, c => if isQuoteChar c then some c else none
  | some q, c => if c = q then none else some q

def literalStateAfter (s : List Char) (n : Nat) : Option Char :=
  (s.take n).foldl literalStep none

/-- C6 (counterexample): substitution is not confined to Python string
literals.  In `a = 'end' + b10 + 'start'` the diff `10 → 25` rewrites the
identifier `b10`, which lies outside every string literal (the regex matches
the span from the closing quote of `'end'` to the opening quote of
`'start'`). -/
theorem applyParamSubstitution_counterexample :
    applyParamSubstitution "a = 'end' + b10 + 'start'" [("10", "25")]
        = "a = 'end' + b25 + 'start'" ∧
    literalStateAfter "a = 'end' + b10 + 'start'".data 13 = none ∧
    "a = 'end' + b10 + 'start'".data.getD 13 ' ' = '1' ∧
    (applyParamSubstitution "a = 'end' + b10 + 'start'"
        [("10", "25")]).data.getD 13 ' ' = '2' := by
  refine ⟨rfl, rfl, rfl, rfl⟩

/-! ## Knowledge-base batch format-consistency check
     (`KnowledgeBaseManager._sanitize_format_consistency`, `_extract_metadata`)

Python source (`skills/tool_rag.py` lines 169-214).  A document's metadata is a
dict; the internal `_pct_fields` key (a list of the field names whose original
string value carried a `%`) is modelled as the separate `pctMarker` component
(`none` = key absent).  Dict keys are unique, so per-document field counts are
modelled with `List.any` over the entry list.  The Python ratio test
`pct_count / total < 0.5` uses float division; the model uses the exact
equivalent `2 * pct_count < total` (they agree for every realistic batch
size). -/

/-- `s.startswith(pre)`, via the character lists (kernel-reducible, unlike
`String.startsWith`). -/
def strStarts (s pre : String) : Bool := pre.data.isPrefixOf s.data

inductive MVal where
  | num (q : ℚ)
  | str (s : String)
deriving DecidableEq

def isNumVal : MVal → Bool
  | .num _ => true
  | .str _ => false

structure DocMeta where
  entries : List (String × MVal)
  pctMarker : Option (List String)
deriving DecidableEq

/-- `doc.metadata.get("_pct_fields", [])`. -/
def pctOf (d : DocMeta) : List String := d.pctMarker.getD []

/-- Whether the document counts towards `field_stats[k]["total"]`. -/
def docHasNumField (d : DocMeta) (k : String) : Bool :=
  d.entries.any fun e => e.1 == k && isNumVal e.2

/-- `field_stats[k]["total"]` over the batch. -/
def fieldTotal (docs : List DocMeta) (k : String) : Nat :=
  docs.countP fun d => docHasNumField d k

/-- `field_stats[k]["pct_count"]` over the batch. -/
def fieldPct (docs : List DocMeta) (k : String) : Nat :=
  docs.countP fun d => docHasNumField d k && (pctOf d).contains k

/-- The removal condition of step 2 (`total ≥ min_samples = 3`, at least one
percent-marked value, and percent-marked values are a strict minority). -/
def pctShouldRemove (docs : List DocMeta) (k : String) : Bool :=
  decide (3 ≤ fieldTotal docs k) && decide (fieldPct docs k ≠ 0)
    && decide (2 * fieldPct docs k < fieldTotal docs k)

/-- `_sanitize_format_consistency(docs)` (`min_samples = 3` as at the call
site): remove the percent-marked numeric values of minority fields, then strip
the `_pct_fields` marker from every document. -/
def sanitizeFormatConsistency (docs : List DocMeta) : List DocMeta :=
  docs.map fun d =>
    { entries := d.entries.filter fun e =>
        !(isNumVal e.2 && !(strStarts e.1 "_") && (pctOf d).contains e.1
          && pctShouldRemove docs e.1),
      pctMarker := none }

/-- C9: a percent-marked numeric value of a dynamic field is removed from its
document exactly when percent-marked values are a strict minority (< 50 %)
among that field's numeric values in the batch, and the `_pct_fields` marker is
absent from every document after the check. -/
theorem sanitizeFormatConsistency_spec (docs : List DocMeta) (i : Nat)
    (d : DocMeta) (hd : docs.get? i = some d) (k : String) (v : ℚ)
    (hmem : (k, MVal.num v) ∈ d.entries) (hpct : (pctOf d).contains k = true)
    (hk : strStarts k "_" = false) :
    (∀ d₂ ∈ sanitizeFormatConsistency docs, d₂.pctMarker = none) ∧
    ∃ d₂, (sanitizeFormatConsistency docs).get? i = some d₂ ∧
      ((k, MVal.num v) ∈ d₂.entries ↔
        ¬(2 * fieldPct docs k < fieldTotal docs k)) := by
  constructor
  · intro d₂ hd2
    obtain ⟨d₀, _, hEq⟩ := List.mem_map.mp hd2
    rw [← hEq]
  · refine ⟨_, by rw [sanitizeFormatConsistency, List.get?_map, hd]; rfl, ?_⟩
    have hpos : 0 < fieldPct docs k := by
      rw [fieldPct]
      refine List.countP_pos.mpr ⟨d, List.get?_mem hd, ?_⟩
      simp only [Bool.and_eq_true]
      refine ⟨?_, hpct⟩
      rw [docHasNumField]
      exact List.any_eq_true.mpr ⟨(k, MVal.num v), hmem, by simp [isNumVal]⟩
    rw [List.mem_filter]
    constructor
    · rintro ⟨-, hkeep⟩ hlt
      rw [Bool.not_eq_true', Bool.and_eq_false_iff] at hkeep
      rcases hkeep with hkeep | hkeep
      · rw [Bool.and_eq_false_iff] at hkeep
        rcases hkeep with hkeep | hkeep
        · rw [Bool.and_eq_false_iff] at hkeep
          rcases hkeep with hkeep | hkeep
          · simp [isNumVal] at hkeep
          · rw [hk] at hkeep; simp at hkeep
        · rw [hpct] at hkeep; exact absurd hkeep (by simp)
      · rw [pctShouldRemove] at hkeep
        simp only [Bool.and_eq_true, decide_eq_true_eq, Bool.and_eq_false_iff,
          decide_eq_false_iff_not] at hkeep
        rcases hkeep with (h3 | hp0) | hmin
        · exact h3 (by omega)
        · exact hp0 (by omega)
        · exact hmin hlt
    · intro hnot
      refine ⟨hmem, ?_⟩
      have hsr : pctShouldRemove docs k = false := by
        rw [pctShouldRemove]
        simp only [Bool.and_eq_false_iff, decide_eq_false_iff_not]
        right
        exact hnot
      simp [isNumVal, hk, hpct, hsr]

def kbDemoDoc1 : DocMeta :=
  { entries := [("title", MVal.str "a"), ("rate", MVal.num 80)],
    pctMarker := some ["rate"] }

def kbDemoDoc2 : DocMeta :=
  { entries := [("rate", MVal.num 41)], pctMarker := none }

def kbDemoDoc3 : DocMeta :=
  { entries := [("rate", MVal.num 55)], pctMarker := none }

def kbDemoDocs : List DocMeta := [kbDemoDoc1, kbDemoDoc2, kbDemoDoc3]

theorem sanitizeFormatConsistency_spec_witness :
    (∀ d₂ ∈ sanitizeFormatConsistency kbDemoDocs, d₂.pctMarker = none) ∧
    ∃ d₂, (sanitizeFormatConsistency kbDemoDocs).get? 0 = some d₂ ∧
      (("rate", MVal.num 80) ∈ d₂.entries ↔
        ¬(2 * fieldPct kbDemoDocs "rate" < fieldTotal kbDemoDocs "rate")) :=
  sanitizeFormatConsistency_spec kbDemoDocs 0 kbDemoDoc1 rfl "rate" 80
    (by decide) (by decide) (by decide)

/-! ## Retrieval pipelines (`CodeCacheManager.search`, `DomCacheManager.search`)

The whole body of each `search` sits inside `try: ... except Exception:
return []`.  External effects — collection setup, the embedding service, the
Milvus hybrid search, `datetime.strptime`, `json.loads`, and the numpy cosine —
are oracle fields of an environment record; a fallible step is an
`Except String` value (`error` = the step raised).  The theorems hold for
every behaviour of the oracles. -/

abbrev Vec := List ℚ

def pyStripL (s : List Char) : List Char :=
  ((s.dropWhile Char.isWhitespace).reverse.dropWhile Char.isWhitespace).reverse

/-- Python `str.strip()` (ASCII whitespace). -/
def pyStrip (s : String) : String := ⟨pyStripL s.data⟩

/-- One raw Milvus hit of the DOM cache, after `read_hit_field` (a missing
field reads as `none`). -/
structure DomRawHit where
  score : ℚ
  cacheId : Option String
  urlPattern : Option String
  domHash : Option String
  taskIntent : Option String
  locatorRaw : Option String
  expireAt : Option String
deriving DecidableEq

/-- `vector_gateway.filter_not_expired`: keep hits whose `expire_at` parses
and is not in the past; a parse failure drops the hit.  `parseTime` is the
`datetime.strptime` oracle. -/
def filterNotExpired (parseTime : String → Option Int) (now : Int)
    (hits : List DomRawHit) : List DomRawHit :=
  hits.filter fun h =>
    match parseTime (h.expireAt.getD "") with
    | some t => decide (now ≤ t)
    | none => false

/-- The environment of one `DomCacheManager.search` call.  `D` is the type of
decoded locator-strategy dictionaries (opaque here); `jsonList` is the
`json.loads` oracle (`none` = parse failure or a non-list value). -/
structure DomSearchEnv (D : Type) where
  ensure : Except String Unit
  embedFields : Except String (Vec × Vec × Vec)
  hybrid : Except String (List (List DomRawHit))
  embedQuery : String → Except String Vec
  cos : Vec → Vec → ℚ
  parseTime : String → Option Int
  now : Int
  jsonList : String → Option (List D)

structure DomCacheHit (D : Type) where
  id : String
  score : ℚ
  locatorSuggestions : List D
  urlPattern : String
  domHash : String
  taskIntent : String

/-- `_decode_locator_suggestions` composed with the `or "[]"` default. -/
def decodeLocators {D : Type} (env : DomSearchEnv D) (raw : Option String) :
    List D :=
  let s := raw.getD ""
  (env.jsonList (if s = "" then "[]" else s)).getD []

def mkDomHit {D : Type} (env : DomSearchEnv D) (item : DomRawHit) :
    DomCacheHit D :=
  { id := item.cacheId.getD ""
    score := item.score
    locatorSuggestions := decodeLocators env item.locatorRaw
    urlPattern := item.urlPattern.getD ""
    domHash := item.domHash.getD ""
    taskIntent := item.taskIntent.getD "" }

/-- The per-hit loop of `DomCacheManager.search`: re-embed the stored
`task_intent`, apply the hard task-intent gate, keep the survivors in order. -/
def gatherDomHits {D : Type} (env : DomSearchEnv D) (queryTaskVec : Vec)
    (minSim : ℚ) : List DomRawHit → Except String (List (DomCacheHit D))
  | [] => .ok []
  | item :: rest => do
    let tv ← env.embedQuery (pyStrip (item.taskIntent.getD ""))
    let tail ← gatherDomHits env queryTaskVec minSim rest
    if env.cos queryTaskVec tv < minSim then pure tail
    else pure (mkDomHit env item :: tail)

def domCacheSearchBody {D : Type} (env : DomSearchEnv D) (minSim : ℚ)
    (topK : Nat) : Except String (List (DomCacheHit D)) := do
  let _ ← env.ensure
  let vecs ← env.embedFields
  let res ← env.hybrid
  let kept := filterNotExpired env.parseTime env.now (res.headD [])
  let hits ← gatherDomHits env vecs.2.2 minSim kept
  pure (hits.take topK)

/-- `DomCacheManager.search`: the `except Exception` wrapper returns `[]`. -/
def domCacheSearch {D : Type} (env : DomSearchEnv D) (minSim : ℚ)
    (topK : Nat) : List (DomCacheHit D) :=
  match domCacheSearchBody env minSim topK with
  | .ok hits => hits
  | .error _ => []

/-- `config.DOM_CACHE_TASK_MIN_SIM` default (`0.8`). -/
def domCacheTaskMinSimDefault : ℚ := 4 / 5

/-- One raw Milvus hit of the code cache after `read_hit_field`. -/
structure CodeRawHit where
  score : ℚ
  cacheId : Option String
  code : Option String
  urlPattern : Option String
  goal : Option String
  successCount : Option Int
  userTask : Option String
deriving DecidableEq

/-- The `CacheHit` named tuple.  Fields keep the `metadata.get` results, which
are `None` (not `""`) when the stored field is missing. -/
structure CacheHit where
  id : Option String
  code : Option String
  score : ℚ
  urlPattern : Option String
  goal : Option String
  successCount : Int
  userTask : Option String
deriving DecidableEq

/-- `CodeCacheManager.SIMILARITY_THRESHOLD` (`0.0`). -/
def codeSimilarityThreshold : ℚ := 0

structure CodeSearchEnv where
  ensure : Except String Unit
  embedFields : Except String (Vec × Vec × Vec × Vec)
  hybrid : Except String (List (List CodeRawHit))

/-- Build one `CacheHit` from a raw hit; `int(metadata.get("success_count",
0))` raises `TypeError` when the field read back as `None`. -/
def decodeCodeHit (item : CodeRawHit) : Except String CacheHit :=
  match item.successCount with
  | none => .error "TypeError: int() argument is None"
  | some n =>
    .ok { id := item.cacheId, code := item.code,
          score := toSimilarity item.score, urlPattern := item.urlPattern,
          goal := item.goal, successCount := n, userTask := item.userTask }

/-- The per-hit loop of `CodeCacheManager.search`: squash the score, skip hits
below `SIMILARITY_THRESHOLD`, decode the rest. -/
def gatherCodeHits : List CodeRawHit → Except String (List CacheHit)
  | [] => .ok []
  | item :: rest =>
    if toSimilarity item.score < codeSimilarityThreshold then
      gatherCodeHits rest
    else do
      let hit ← decodeCodeHit item
      let tail ← gatherCodeHits rest
      pure (hit :: tail)

def codeCacheSearchBody (env : CodeSearchEnv) : Except String (List CacheHit) := do
  let _ ← env.ensure
  let _vecs ← env.embedFields
  let res ← env.hybrid
  gatherCodeHits (res.headD [])

/-- `CodeCacheManager.search`: the `except Exception` wrapper returns `[]`. -/
def codeCacheSearch (env : CodeSearchEnv) : List CacheHit :=
  match codeCacheSearchBody env with
  | .ok hits => hits
  | .error _ => []

def isErr {α : Type} (x : Except String α) : Prop := ∃ e, x = Except.error e

theorem exceptPure {α : Type} (a : α) : (pure a : Except String α) = .ok a := rfl

theorem exceptBind_ok {α β : Type} (a : α) (f : α → Except String β) :
    (Except.ok a >>= f) = f a := rfl

theorem exceptBind_err {α β : Type} (e : String) (f : α → Except String β) :
    ((Except.error e : Except String α) >>= f) = .error e := rfl

theorem exceptMap_ok {α β : Type} (f : α → β) (a : α) :
    (f <$> (Except.ok a : Except String α)) = .ok (f a) := rfl

theorem exceptMap_err {α β : Type} (f : α → β) (e : String) :
    (f <$> (Except.error e : Except String α)) = .error e := rfl

/-- The raw hit group `search_res[0] if search_res else []` of the code cache,
when the hybrid search succeeded. -/
def codeRawOf (cenv : CodeSearchEnv) : List CodeRawHit :=
  (cenv.hybrid.toOption.getD []).headD []

/-- The TTL-surviving raw hits of the DOM cache, when the hybrid search
succeeded. -/
def domKeptOf {D : Type} (denv : DomSearchEnv D) : List DomRawHit :=
  filterNotExpired denv.parseTime denv.now ((denv.hybrid.toOption.getD []).headD [])

theorem gatherDomHits_gate {D : Type} (env : DomSearchEnv D) (qv : Vec)
    (minSim : ℚ) :
    ∀ (raw : List DomRawHit) (hits : List (DomCacheHit D)),
      gatherDomHits env qv minSim raw = .ok hits →
      ∀ h ∈ hits, ∃ tv, env.embedQuery (pyStrip h.taskIntent) = .ok tv ∧
        minSim ≤ env.cos qv tv := by
  intro raw
  induction raw with
  | nil =>
    intro hits hok h hmem
    rw [gatherDomHits] at hok
    cases hok
    cases hmem
  | cons item rest ih =>
    intro hits hok h hmem
    rw [gatherDomHits] at hok
    cases he : env.embedQuery (pyStrip (item.taskIntent.getD "")) with
    | error e => rw [he, exceptBind_err] at hok; cases hok
    | ok tv =>
      rw [he] at hok
      simp only [exceptBind_ok] at hok
      cases ht : gatherDomHits env qv minSim rest with
      | error e => rw [ht, exceptBind_err] at hok; cases hok
      | ok tail =>
        rw [ht] at hok
        simp only [exceptBind_ok] at hok
        by_cases hcs : env.cos qv tv < minSim
        · rw [if_pos hcs, exceptPure] at hok
          injection hok with h2
          exact ih tail ht h (by rw [h2]; exact hmem)
        · rw [if_neg hcs, exceptPure] at hok
          injection hok with h2
          have hmem2 : h ∈ mkDomHit env item :: tail := by rw [h2]; exact hmem
          rcases List.mem_cons.mp hmem2 with rfl | hmem3
          · exact ⟨tv, he, not_lt.mp hcs⟩
          · exact ih tail ht h hmem3

theorem domCacheSearchBody_ok {D : Type} (env : DomSearchEnv D) (minSim : ℚ)
    (topK : Nat) (hits : List (DomCacheHit D))
    (h : domCacheSearchBody env minSim topK = .ok hits) :
    ∃ vecs hits0, env.embedFields = .ok vecs ∧
      gatherDomHits env vecs.2.2 minSim (domKeptOf env) = .ok hits0 ∧
      hits = hits0.take topK := by
  rw [domCacheSearchBody] at h
  cases hen : env.ensure with
  | error e => rw [hen, exceptBind_err] at h; cases h
  | ok u =>
    rw [hen] at h
    simp only [exceptBind_ok] at h
    cases hef : env.embedFields with
    | error e => rw [hef, exceptBind_err] at h; cases h
    | ok vecs =>
      rw [hef] at h
      simp only [exceptBind_ok] at h
      cases hhy : env.hybrid with
      | error e => rw [hhy, exceptBind_err] at h; cases h
      | ok res =>
        rw [hhy] at h
        simp only [exceptBind_ok] at h
        cases hg : gatherDomHits env vecs.2.2 minSim
            (filterNotExpired env.parseTime env.now (res.headD [])) with
        | error e => rw [hg, exceptBind_err] at h; cases h
        | ok hits0 =>
          rw [hg] at h
          simp only [exceptBind_ok, exceptPure] at h
          injection h with h2
          refine ⟨vecs, hits0, rfl, ?_, h2.symm⟩
          rw [domKeptOf, hhy]
          simp only [Except.toOption, Option.getD_some]
          exact hg

/-- C7: every DOM-cache hit returned by `search` passes the hard task-intent
gate: re-embedding the hit's stored (stripped) `task_intent` succeeded and its
cosine similarity to the query's task vector is at least `task_min_sim`; a
candidate below the floor is dropped regardless of its hybrid ranker score. -/
theorem domCacheSearch_task_gate {D : Type} (env : DomSearchEnv D)
    (minSim : ℚ) (topK : Nat) (h : DomCacheHit D)
    (hmem : h ∈ domCacheSearch env minSim topK) :
    ∃ vecs tv, env.embedFields = .ok vecs ∧
      env.embedQuery (pyStrip h.taskIntent) = .ok tv ∧
      minSim ≤ env.cos vecs.2.2 tv := by
  rw [domCacheSearch] at hmem
  cases hbody : domCacheSearchBody env minSim topK with
  | error e => rw [hbody] at hmem; cases hmem
  | ok hits =>
    rw [hbody] at hmem
    obtain ⟨vecs, hits0, hef, hg, rfl⟩ :=
      domCacheSearchBody_ok env minSim topK hits hbody
    obtain ⟨tv, htv, hsim⟩ :=
      gatherDomHits_gate env vecs.2.2 minSim (domKeptOf env) hits0 hg h
        (List.mem_of_mem_take hmem)
    exact ⟨vecs, tv, hef, htv, hsim⟩

def demoDomRawHit : DomRawHit :=
  { score := 1, cacheId := some "dom1", urlPattern := some "a.com/x",
    domHash := some "h", taskIntent := some "list items",
    locatorRaw := some "[]", expireAt := some "2099-01-01T00:00:00" }

def demoDomEnv : DomSearchEnv Unit :=
  { ensure := .ok ()
    embedFields := .ok ([1], [1], [1])
    hybrid := .ok [[demoDomRawHit]]
    embedQuery := fun _ => .ok [1]
    cos := fun _ _ => 1
    parseTime := fun _ => some 1
    now := 0
    jsonList := fun _ => some [] }

theorem domCacheSearch_task_gate_witness :
    ∃ vecs tv, demoDomEnv.embedFields = .ok vecs ∧
      demoDomEnv.embedQuery
        (pyStrip (mkDomHit demoDomEnv demoDomRawHit).taskIntent) = .ok tv ∧
      (1 : ℚ) ≤ demoDomEnv.cos vecs.2.2 tv :=
  domCacheSearch_task_gate demoDomEnv 1 3
    (mkDomHit demoDomEnv demoDomRawHit)
    (by
      have hcomp : domCacheSearch demoDomEnv 1 3
          = [mkDomHit demoDomEnv demoDomRawHit] := by
        rfl
      rw [hcomp]
      exact List.mem_singleton.mpr rfl)

theorem gatherCodeHits_err (raw : List CodeRawHit) (item : CodeRawHit)
    (hmem : item ∈ raw)
    (hsim : ¬ toSimilarity item.score < codeSimilarityThreshold)
    (hnone : item.successCount = none) : isErr (gatherCodeHits raw) := by
  induction raw with
  | nil => cases hmem
  | cons a rest ih =>
    rw [gatherCodeHits]
    by_cases hs : toSimilarity a.score < codeSimilarityThreshold
    · rw [if_pos hs]
      rcases List.mem_cons.mp hmem with rfl | hmem2
      · exact absurd hs hsim
      · exact ih hmem2
    · rw [if_neg hs]
      rcases List.mem_cons.mp hmem with rfl | hmem2
      · refine ⟨"TypeError: int() argument is None", ?_⟩
        simp only [decodeCodeHit, hnone, exceptBind_err]
      · cases hd : decodeCodeHit a with
        | error e => exact ⟨e, by rw [exceptBind_err]⟩
        | ok hit =>
          obtain ⟨e, he⟩ := ih hmem2
          refine ⟨e, ?_⟩
          simp only [exceptBind_ok]
          rw [he, exceptBind_err]

theorem gatherDomHits_err {D : Type} (env : DomSearchEnv D) (qv : Vec)
    (minSim : ℚ) (raw : List DomRawHit) (item : DomRawHit) (hmem : item ∈ raw)
    (he : isErr (env.embedQuery (pyStrip (item.taskIntent.getD "")))) :
    isErr (gatherDomHits env qv minSim raw) := by
  induction raw with
  | nil => cases hmem
  | cons a rest ih =>
    rw [gatherDomHits]
    cases hq : env.embedQuery (pyStrip (a.taskIntent.getD "")) with
    | error e => exact ⟨e, by rw [exceptBind_err]⟩
    | ok tv =>
      rcases List.mem_cons.mp hmem with rfl | hmem2
      · rw [hq] at he
        obtain ⟨e, hcontra⟩ := he
        cases hcontra
      · obtain ⟨e, herr⟩ := ih hmem2
        refine ⟨e, ?_⟩
        simp only [exceptBind_ok]
        rw [herr, exceptBind_err]

/-- C10: cache retrieval never propagates an exception to the caller: whenever
any internal step of `CodeCacheManager.search` or `DomCacheManager.search`
raises (collection setup, field embedding, hybrid search, per-hit decoding or
the per-hit re-embedding of the DOM gate — TTL parse failures merely drop the
hit), the call returns `[]`, indistinguishable from a miss. -/
theorem cacheSearch_exception_safe {D : Type} (cenv : CodeSearchEnv)
    (denv : DomSearchEnv D) (minSim : ℚ) (topK : Nat) :
    ((isErr cenv.ensure ∨ isErr cenv.embedFields ∨ isErr cenv.hybrid ∨
        (∃ item ∈ codeRawOf cenv,
          ¬ toSimilarity item.score < codeSimilarityThreshold ∧
            item.successCount = none)) →
      codeCacheSearch cenv = []) ∧
    ((isErr denv.ensure ∨ isErr denv.embedFields ∨ isErr denv.hybrid ∨
        (∃ item ∈ domKeptOf denv,
          isErr (denv.embedQuery (pyStrip (item.taskIntent.getD ""))))) →
      domCacheSearch denv minSim topK = []) := by
  constructor
  · intro hcase
    have hbody : isErr (codeCacheSearchBody cenv) := by
      rw [codeCacheSearchBody]
      cases hen : cenv.ensure with
      | error e => rw [exceptBind_err]; exact ⟨e, rfl⟩
      | ok u =>
        simp only [exceptBind_ok]
        cases hef : cenv.embedFields with
        | error e => rw [exceptBind_err]; exact ⟨e, rfl⟩
        | ok vecs =>
          simp only [exceptBind_ok]
          cases hhy : cenv.hybrid with
          | error e => rw [exceptBind_err]; exact ⟨e, rfl⟩
          | ok res =>
            simp only [exceptBind_ok]
            rcases hcase with h | h | h | h
            · obtain ⟨e, hcontra⟩ := h; rw [hen] at hcontra; cases hcontra
            · obtain ⟨e, hcontra⟩ := h; rw [hef] at hcontra; cases hcontra
            · obtain ⟨e, hcontra⟩ := h; rw [hhy] at hcontra; cases hcontra
            · obtain ⟨item, hmem, hsim, hnone⟩ := h
              rw [codeRawOf, hhy] at hmem
              simp only [Except.toOption, Option.getD_some] at hmem
              exact gatherCodeHits_err (res.headD []) item hmem hsim hnone
    obtain ⟨e, he⟩ := hbody
    rw [codeCacheSearch, he]
  · intro hcase
    have hbody : isErr (domCacheSearchBody denv minSim topK) := by
      rw [domCacheSearchBody]
      cases hen : denv.ensure with
      | error e => rw [exceptBind_err]; exact ⟨e, rfl⟩
      | ok u =>
        simp only [exceptBind_ok]
        cases hef : denv.embedFields with
        | error e => rw [exceptBind_err]; exact ⟨e, rfl⟩
        | ok vecs =>
          simp only [exceptBind_ok]
          cases hhy : denv.hybrid with
          | error e => rw [exceptBind_err]; exact ⟨e, rfl⟩
          | ok res =>
            simp only [exceptBind_ok]
            rcases hcase with h | h | h | h
            · obtain ⟨e, hcontra⟩ := h; rw [hen] at hcontra; cases hcontra
            · obtain ⟨e, hcontra⟩ := h; rw [hef] at hcontra; cases hcontra
            · obtain ⟨e, hcontra⟩ := h; rw [hhy] at hcontra; cases hcontra
            · obtain ⟨item, hmem, hq⟩ := h
              rw [domKeptOf, hhy] at hmem
              simp only [Except.toOption, Option.getD_some] at hmem
              obtain ⟨e, herr⟩ :=
                gatherDomHits_err denv vecs.2.2 minSim _ item hmem hq
              rw [herr, exceptBind_err]
              exact ⟨e, rfl⟩
    obtain ⟨e, he⟩ := hbody
    rw [domCacheSearch, he]

def demoFailingCodeEnv : CodeSearchEnv :=
  { ensure := .ok ()
    embedFields := .ok ([1], [1], [1], [1])
    hybrid := .error "MilvusException: deadline exceeded" }

def demoFailingDomEnv : DomSearchEnv Unit :=
  { ensure := .error "MilvusException: connection refused"
    embedFields := .ok ([1], [1], [1])
    hybrid := .ok []
    embedQuery := fun _ => .ok [1]
    cos := fun _ _ => 1
    parseTime := fun _ => none
    now := 0
    jsonList := fun _ => some [] }

theorem cacheSearch_exception_safe_witness :
    codeCacheSearch demoFailingCodeEnv = [] ∧
    domCacheSearch demoFailingDomEnv 1 3 = [] :=
  ⟨(cacheSearch_exception_safe demoFailingCodeEnv demoFailingDomEnv
      1 3).1 (Or.inr (Or.inr (Or.inl ⟨_, rfl⟩))),
   (cacheSearch_exception_safe demoFailingCodeEnv demoFailingDomEnv
      1 3).2 (Or.inl ⟨_, rfl⟩)⟩

/-! ## Cache-lookup node (`core/nodes.py::cache_lookup_node`)

External effects are oracle parameters: `searchOutcome` is the outcome of the
whole `code_cache_manager.search` call (inside the node's `try`, an `error`
models a raised exception), `extractDiffs` is `extract_param_diffs`
(a `difflib.SequenceMatcher` token diff over the two task strings).  The
parameter substitution itself is the `applyParamSubstitution` model above. -/

inductive CodeSource where
  | cache
  | llm
deriving DecidableEq

inductive LookupGoto where
  | coder
  | executor
deriving DecidableEq

structure LookupState where
  cacheFailedThisRound : Bool
  userTask : String
  plan : String
  currentUrl : String
deriving DecidableEq

structure CacheLookupConfig where
  enabled : Bool
  threshold : ℚ
deriving DecidableEq

/-- A partial `AgentState` update: `none` = the key is absent from the update
dict; for clearable fields `some none` = the key maps to Python `None`. -/
structure LookupUpdate where
  generatedCode : Option (Option String) := none
  codeSource : Option CodeSource := none
  cacheHitId : Option (Option String) := none
deriving DecidableEq

structure LookupCommand where
  update : LookupUpdate
  goto : LookupGoto
deriving DecidableEq

/-- `not current_url or current_url.startswith(("about:", "data:",
"chrome://"))`. -/
def isTrivialUrl (u : String) : Bool :=
  u == "" || strStarts u "about:" || strStarts u "data:" || strStarts u "chrome://"

def llmCoder : LookupCommand := ⟨{ codeSource := some .llm }, .coder⟩

def cacheLookupNode (st : LookupState) (cfg : CacheLookupConfig)
    (searchOutcome : Except String (List CacheHit))
    (extractDiffs : String → String → List (String × String)) : LookupCommand :=
  if st.cacheFailedThisRound then llmCoder
  else if !cfg.enabled then llmCoder
  else if isTrivialUrl st.currentUrl then llmCoder
  else
    match searchOutcome with
    | .error _ => llmCoder
    | .ok hits =>
      match hits with
      | [] => llmCoder
      | best :: _ =>
        if cfg.threshold ≤ best.score then
          let cachedTask := best.userTask.getD ""
          let diffs :=
            if cachedTask ≠ "" ∧ cachedTask ≠ st.userTask then
              extractDiffs cachedTask st.userTask
            else []
          match best.code with
          | some codeStr =>
            let finalCode :=
              if diffs ≠ [] then applyParamSubstitution codeStr diffs
              else codeStr
            ⟨{ generatedCode := some (some finalCode),
               codeSource := some .cache, cacheHitId := some best.id },
             .executor⟩
          | none =>
            -- a hit with `code = None`: `apply_param_substitution` raises
            -- `TypeError`, which the node's `except` turns into the LLM path;
            -- with no diffs the `None` flows into `generated_code`.
            if diffs ≠ [] then llmCoder
            else
              ⟨{ generatedCode := some none, codeSource := some .cache,
                 cacheHitId := some best.id }, .executor⟩
        else llmCoder

/-- C2: whenever `_cache_failed_this_round` is true when the cache-lookup node
runs, code-cache retrieval is bypassed entirely: the node sets
`_code_source = "llm"` and routes to Coder, and never sets
`_code_source = "cache"`, for every search outcome and configuration. -/
theorem cacheLookupNode_breaker (st : LookupState) (cfg : CacheLookupConfig)
    (searchOutcome : Except String (List CacheHit))
    (extractDiffs : String → String → List (String × String))
    (hflag : st.cacheFailedThisRound = true) :
    (cacheLookupNode st cfg searchOutcome extractDiffs).update.codeSource
        = some CodeSource.llm ∧
    (cacheLookupNode st cfg searchOutcome extractDiffs).goto = LookupGoto.coder ∧
    (cacheLookupNode st cfg searchOutcome extractDiffs).update.codeSource
        ≠ some CodeSource.cache := by
  rw [cacheLookupNode.eq_def, if_pos hflag]
  exact ⟨rfl, rfl, by simp [llmCoder]⟩

theorem cacheLookupNode_breaker_witness :
    (cacheLookupNode
        { cacheFailedThisRound := true, userTask := "scrape top 25 items",
          plan := "open the listing", currentUrl := "http://a.com/items" }
        { enabled := true, threshold := 9 / 10 }
        (.ok []) (fun _ _ => [])).goto = LookupGoto.coder :=
  (cacheLookupNode_breaker _ _ _ _ rfl).2.1

/-! ## Planner node (`core/nodes.py::planner_node`)

Oracles: `currentUrl` is `tab.url` (or `""` without a tab); `llmContent` is
the content of the single LLM response the taken branch makes; `continuity`
is the result of `_detect_task_continuity` (it reads `CONTINUE_KEYWORDS`,
which the repository's `config.py` does not define); the four keyword lists
are the `RAG_*_KEYWORDS` configuration.  Prompt texts only feed the LLM and
are not modelled.  Message contents are modelled as strings. -/

inductive RagTask where
  | storeKb
  | storeCode
  | qa
deriving DecidableEq

inductive PlannerGoto where
  | cacheLookup
  | ragNode
  | endNode
deriving DecidableEq

structure VerificationResult where
  isSuccess : Option Bool
  summary : Option String
deriving DecidableEq

structure PlannerState where
  userTask : String
  loopCount : Nat
  finishedSteps : List String
  locatorSuggestions : List String
  reflections : List String
  verificationResult : Option VerificationResult
  stepFailCount : Nat
deriving DecidableEq

/-- A partial `AgentState` update returned by the Planner: `none` = key absent
from the update dict; for clearable/nullable fields `some none` = the key maps
to Python `None` (which the reducer treats as a clear). -/
structure PlannerUpdate where
  messages : List String := []
  plan : Option String := none
  currentUrl : Option String := none
  domSkeleton : Option String := none
  loopCount : Option Nat := none
  isComplete : Option Bool := none
  finishedSteps : Option (Option (List String)) := none
  locatorSuggestions : Option (Option (List String)) := none
  reflections : Option (Option (List String)) := none
  generatedCode : Option (Option String) := none
  executionLog : Option (Option String) := none
  verificationResult : Option (Option VerificationResult) := none
  error : Option (Option String) := none
  errorType : Option (Option String) := none
  coderRetryCount : Option Nat := none
  codeSource : Option (Option CodeSource) := none
  cacheFailedThisRound : Option Bool := none
  observerSource : Option (Option String) := none
  domCacheHitId : Option (Option String) := none
  domHash : Option (Option String) := none
  ragTaskType : Option RagTask := none
  stepFailCount : Option Nat := none
deriving DecidableEq

structure PlannerCommand where
  update : PlannerUpdate
  goto : PlannerGoto
deriving DecidableEq

/-- `needle in hay` for Python strings. -/
def containsSub (hay needle : String) : Bool :=
  decide (needle.data <:+: hay.data)

/-- `MAX_LOOP_COUNT` in `planner_node`. -/
def plannerMaxLoop : Nat := 10

/-- The synthetic termination message of the loop-ceiling branch. -/
def plannerOverflowMessage : String := "【系统】达到最大循环次数 10，任务强制终止"

/-- `is_blank or is_google_home` of `planner_node`. -/
def isInitialPage (url : String) : Bool :=
  url == "" || strStarts url "about:" || strStarts url "data:"
    || strStarts url "chrome://"
    || (containsSub url "google.com" && !containsSub url "/search")

def plannerOverflowCommand : PlannerCommand :=
  ⟨{ messages := [plannerOverflowMessage], isComplete := some true },
   .endNode⟩

def plannerNode (st : PlannerState) (currentUrl llmContent : String)
    (continuity : Bool) (ragGoalKw ragDoneKw ragStoreKw ragQaKw : List String) :
    PlannerCommand :=
  if plannerMaxLoop ≤ st.loopCount then plannerOverflowCommand
  else if st.loopCount = 0 ∧ isInitialPage currentUrl = true then
    ⟨{ messages := [llmContent], plan := some llmContent,
       domSkeleton := some "(Start Page - Empty)",
       loopCount := some (st.loopCount + 1), isComplete := some false },
     .cacheLookup⟩
  else if st.loopCount = 0 then
    if continuity then
      ⟨{ messages := [llmContent], plan := some llmContent,
         currentUrl := some currentUrl,
         loopCount := some (st.loopCount + 1), isComplete := some false },
       .cacheLookup⟩
    else
      ⟨{ messages := [llmContent], plan := some llmContent,
         currentUrl := some currentUrl,
         locatorSuggestions := some none, finishedSteps := some none,
         reflections := some none, generatedCode := some none,
         executionLog := some none, verificationResult := some none,
         error := some none, errorType := some none,
         coderRetryCount := some 0, codeSource := some none,
         cacheFailedThisRound := some false, observerSource := some none,
         domCacheHitId := some none, domSkeleton := some "",
         domHash := some none, loopCount := some 1, isComplete := some false },
       .cacheLookup⟩
  else
    let isLastFail : Bool :=
      match st.verificationResult with
      | some vr => vr.isSuccess.getD true == false
      | none => false
    let sfc := if isLastFail then st.stepFailCount + 1 else 0
    let hasFinishedTag := containsSub llmContent "【任务已完成】"
    let hasPlanTag := containsSub llmContent "【计划已生成】"
    let isFinished := hasFinishedTag && !hasPlanTag
    let base : PlannerUpdate :=
      { messages := [llmContent], plan := some llmContent,
        loopCount := some (st.loopCount + 1), isComplete := some isFinished,
        stepFailCount := some sfc }
    if isFinished then
      let taskNeedsRag := ragGoalKw.any fun kw => containsSub st.userTask kw
      let ragDone := st.finishedSteps.any fun step =>
        ragDoneKw.any fun dk => containsSub step dk
      if taskNeedsRag && !ragDone then
        ⟨{ base with isComplete := some false, ragTaskType := some .storeKb },
         .ragNode⟩
      else ⟨base, .endNode⟩
    else if ragStoreKw.any (fun kw => containsSub llmContent kw) then
      ⟨{ base with ragTaskType := some .storeKb }, .ragNode⟩
    else if ragQaKw.any (fun kw => containsSub llmContent kw) then
      ⟨{ base with ragTaskType := some .qa }, .ragNode⟩
    else ⟨base, .cacheLookup⟩

/-- C3 (counterexample): at the loop ceiling the Planner terminates with
`is_complete = true` and routes to End, but the update records **no**
finished step (the `finished_steps` key is absent from the update; only a
synthetic chat message is appended) — contradicting the claim that a
synthetic finished step is recorded. -/
theorem plannerNode_overflow_counterexample :
    (plannerNode
        { userTask := "scrape the list", loopCount := 10, finishedSteps := [],
          locatorSuggestions := [], reflections := [],
          verificationResult := none, stepFailCount := 0 }
        "http://a.com/x" "【计划已生成】 next step" false [] [] [] []).update.isComplete
      = some true ∧
    (plannerNode
        { userTask := "scrape the list", loopCount := 10, finishedSteps := [],
          locatorSuggestions := [], reflections := [],
          verificationResult := none, stepFailCount := 0 }
        "http://a.com/x" "【计划已生成】 next step" false [] [] [] []).goto
      = PlannerGoto.endNode ∧
    (plannerNode
        { userTask := "scrape the list", loopCount := 10, finishedSteps := [],
          locatorSuggestions := [], reflections := [],
          verificationResult := none, stepFailCount := 0 }
        "http://a.com/x" "【计划已生成】 next step" false [] [] [] []).update.finishedSteps
      = none :=
  ⟨rfl, rfl, rfl⟩

/-- C3 (amended): whenever the Planner runs with `loop_count` at or above the
ceiling of 10, it forcibly terminates: the update sets `is_complete = true`
and appends one synthetic termination message, routing goes to End, and no
new plan is produced (and no finished step is recorded) — for every oracle
behaviour. -/
theorem plannerNode_overflow (st : PlannerState) (currentUrl llmContent : String)
    (continuity : Bool) (gk dk sk qk : List String)
    (h : plannerMaxLoop ≤ st.loopCount) :
    plannerNode st currentUrl llmContent continuity gk dk sk qk
      = plannerOverflowCommand ∧
    plannerOverflowCommand.update.isComplete = some true ∧
    plannerOverflowCommand.update.messages = [plannerOverflowMessage] ∧
    plannerOverflowCommand.update.plan = none ∧
    plannerOverflowCommand.update.finishedSteps = none ∧
    plannerOverflowCommand.goto = PlannerGoto.endNode := by
  refine ⟨?_, rfl, rfl, rfl, rfl, rfl⟩
  rw [plannerNode.eq_def, if_pos h]

theorem plannerNode_overflow_witness :
    plannerNode
        { userTask := "t", loopCount := 12, finishedSteps := [],
          locatorSuggestions := [], reflections := [],
          verificationResult := none, stepFailCount := 0 }
        "" "anything" true ["知识库"] [] [] []
      = plannerOverflowCommand :=
  (plannerNode_overflow _ _ _ _ _ _ _ _ (by decide)).1

/-! ## Cache-failure recording (`core/nodes.py::_handle_cache_failure`,
     `skills/vector_base.py::VectorCacheBase.record_failure`)

`_handle_cache_failure` runs when cached code fails in the Executor, or when
the Verifier's LLM judgment fails a cached step; it calls
`code_cache_manager.record_failure(cache_hit_id, reason=...)` inside
`try: ... except Exception: <log>`.  `record_failure` is defined on the
abstract base class `VectorCacheBase` — but `CodeCacheManager`
(`skills/code_cache.py` line 92) is a plain class that does **not** inherit
from `VectorCacheBase` and defines no `record_failure` of its own (the same
holds for `DomCacheManager` and the Observer's DOM-cache failure path), so
the attribute lookup raises `AttributeError`, the `except` swallows it, and
no record is ever appended to `output/cache_failures.jsonl`. -/

/-- The JSONL record `record_failure` would append. -/
structure AuditRecord where
  cacheId : String
  cacheType : String
  timestamp : String
  reason : String
deriving DecidableEq

/-- The methods `class CodeCacheManager` actually defines
(`skills/code_cache.py` lines 92-488). -/
def codeCacheManagerMethods : List String :=
  ["__init__", "_get_embeddings", "_get_vector_dim", "_schema_fields",
   "_is_schema_compatible", "_create_collection", "_ensure_collection",
   "_normalize_url", "_compute_dom_hash", "_embed_fields",
   "_build_ann_requests", "_to_similarity", "search", "_is_navigation_task",
   "_is_duplicate", "_shutdown", "_do_save_async", "save", "update_stats"]

/-- The methods `class DomCacheManager` actually defines
(`skills/dom_cache.py` lines 49-372). -/
def domCacheManagerMethods : List String :=
  ["__init__", "_shutdown", "_get_embeddings", "_get_vector_dim",
   "_schema_fields", "_is_schema_compatible", "_create_collection",
   "_ensure_collection", "_normalize_url", "_compact_dom", "_task_intent",
   "_compute_dom_hash", "_embed_fields", "_build_requests",
   "_decode_locator_suggestions", "_cosine_similarity", "search",
   "_do_save_async", "save", "invalidate"]

/-- `VectorCacheBase.record_failure` as defined in `skills/vector_base.py`
lines 190-221: append exactly one JSONL record (no deletion) when the id is
nonempty. -/
def recordFailureImpl (tag cacheId reason timestamp : String) :
    List AuditRecord :=
  if cacheId = "" then [] else [⟨cacheId, tag, timestamp, reason⟩]

/-- Python attribute lookup plus call: `manager.record_failure(...)` raises
`AttributeError` unless the class defines the method. -/
def callRecordFailure (methods : List String) (tag cacheId reason ts : String) :
    Except String (List AuditRecord) :=
  if methods.contains "record_failure" then
    .ok (recordFailureImpl tag cacheId reason ts)
  else .error "AttributeError: record_failure"

structure CacheFailureCommand where
  cacheFailedThisRound : Bool
  cacheHitId : Option (Option String)
  goto : String
  auditAppends : List AuditRecord
deriving DecidableEq

/-- `_handle_cache_failure(state, updates)`: record the failure (swallowing
any exception), set the breaker, clear the hit id, go to Planner.
`auditAppends` is the list of records appended to
`output/cache_failures.jsonl` by the call. -/
def handleCacheFailure (cacheHitId : Option String) (ts : String) :
    CacheFailureCommand :=
  let hitId := cacheHitId.getD ""
  let appends :=
    if hitId ≠ "" then
      match callRecordFailure codeCacheManagerMethods "CodeCache" hitId
          "执行/验收失败" ts with
      | .ok records => records
      | .error _ => []
    else []
  { cacheFailedThisRound := true, cacheHitId := some none,
    goto := "Planner", auditAppends := appends }

/-- C1: contrary to the claim, when cached code fails no JSON record is ever
appended to `output/cache_failures.jsonl`: `record_failure` is missing from
`CodeCacheManager` (and from `DomCacheManager`), the `AttributeError` is
swallowed, and the audit append list is empty for every cache-hit id; the
breaker is still set, routing still goes to Planner, and the cache row is
indeed not deleted (the handler performs no delete at all). -/
theorem handleCacheFailure_never_records (cacheHitId : Option String)
    (ts : String) :
    codeCacheManagerMethods.contains "record_failure" = false ∧
    domCacheManagerMethods.contains "record_failure" = false ∧
    (handleCacheFailure cacheHitId ts).auditAppends = [] ∧
    (handleCacheFailure cacheHitId ts).cacheFailedThisRound = true ∧
    (handleCacheFailure cacheHitId ts).goto = "Planner" := by
  refine ⟨by decide, by decide, ?_, rfl, rfl⟩
  simp only [handleCacheFailure]
  split_ifs with h
  · rw [callRecordFailure, if_neg (by decide)]
  · rfl

/-- Had `CodeCacheManager` inherited `VectorCacheBase` (the evident intent of
the base class), exactly one record would be appended per nonempty hit id. -/
theorem recordFailureImpl_single (tag cacheId reason ts : String)
    (h : cacheId ≠ "") :
    recordFailureImpl tag cacheId reason ts
      = [⟨cacheId, tag, ts, reason⟩] := by
  rw [recordFailureImpl, if_neg h]

end AutoWeb
